import Mathlib

/-!
Shallow embedding of the benchtoolz measurement-and-aggregation engine
(src/benchtoolz/benchutils.py and src/benchtoolz/printutils.py), together
with theorems settling the specification claims about it.

Modelling conventions:
* Python floats are modelled as exact rationals (`ℚ`); the properties proved
  are order/arithmetic properties at values where float rounding is not at
  issue.
* The injected timer is modelled as a deterministic function from the loop
  count to the observed elapsed seconds; `Timer.repeat(n, loops)` therefore
  returns `n` copies of the reading at `loops`.
* Python dicts are modelled as insertion-ordered association lists with
  overwrite-on-assignment; `dict(zip(ks, vs))` maps a key to the value of its
  last occurrence.
* Python `sorted` is modelled by `List.insertionSort`, which is a stable
  sorting algorithm just like Python's; no property proved here depends on
  the choice among stable sorts.
-/

/-- Result of a Python callback: only the exact singleton `False` is special
to `runbenchmarks` (the source tests `... is False`). -/
inductive PyVal where
  | none : PyVal
  | bool : Bool → PyVal
  | int : Int → PyVal
  | str : String → PyVal
deriving DecidableEq

/-- Models the Python identity test `v is False`. -/
def pyIsFalse (v : PyVal) : Bool :=
  decide (v = PyVal.bool false)

/-!
### printutils.numericstringkey / nsorted

`numericstringkey` splits a string at maximal digit runs (re.split(r'(\d+)', s)
produces an alternating text/digits/…/text list, the outer text parts possibly
empty), converts each digit run with `int`, and returns the tuple.  Text
elements compare as strings (by character code), digit runs as integers; two
keys only ever compare text against text and number against number at the same
position, but for totality we complete the order with the Python-2 rule that
numbers sort before strings.  A text part is modelled as its list of character
codes so the tuple becomes a lexicographically ordered list.
-/

/-- One element of a numeric-string key: a digit run (as its integer value) or
a text part (as its list of character codes). -/
abbrev KeyPart := ℕ ⊕ₗ List ℕ

/-- A numeric-string key: the tuple returned by `numericstringkey`. -/
abbrev NKey := List KeyPart

/-- Integer value of a digit run, as computed by Python `int` (leading zeros
collapse). -/
def digitRunVal (ds : List Char) : ℕ :=
  ds.foldl (fun acc c => 10 * acc + (c.toNat - 48)) 0

/-- Character codes of a text part. -/
def charCodes (cs : List Char) : List ℕ :=
  cs.map Char.toNat

/-- Worker for `numericstringkey`: alternately strip a (possibly empty) text
part and a (nonempty) digit run.  The fuel is an upper bound on the number of
digit runs; `numericstringkey` passes enough for the whole string. -/
def splitRunsGo : ℕ → List Char → NKey
  | 0, _ => []
  | fuel + 1, cs =>
    let txt := cs.takeWhile (fun c => ! c.isDigit)
    let rest := cs.dropWhile (fun c => ! c.isDigit)
    let txtPart : KeyPart := toLex (Sum.inr (charCodes txt))
    match rest with
    | [] => [txtPart]
    | _ :: _ =>
      let ds := rest.takeWhile Char.isDigit
      let rest2 := rest.dropWhile Char.isDigit
      txtPart :: toLex (Sum.inl (digitRunVal ds)) :: splitRunsGo fuel rest2

/-- Embedding of `printutils.numericstringkey` on strings (the tuple branch of
the source recurses elementwise and is not needed by the claims). -/
def numericstringkey (s : String) : NKey :=
  splitRunsGo (s.length + 1) s.data

/-- Comparison of two strings by their numeric-string keys; this is the order
`nsorted` sorts by. -/
def nkeyle (a b : String) : Prop :=
  numericstringkey a ≤ numericstringkey b

instance : DecidableRel nkeyle :=
  fun a b => inferInstanceAs (Decidable (numericstringkey a ≤ numericstringkey b))

instance : IsTotal String nkeyle :=
  ⟨fun _ _ => le_total _ _⟩

instance : IsTrans String nkeyle :=
  ⟨fun _ _ _ h1 h2 => le_trans h1 h2⟩

/-- Embedding of `printutils.nsorted = functools.partial(sorted, key=numericstringkey)`. -/
def nsorted (l : List String) : List String :=
  List.insertionSort nkeyle l

/-!
### printutils.best_units
-/

/-- Embedding of `printutils.best_units`: scale factor and magnitude-prefix
ladder from femto to tera. -/
def best_units (num : ℚ) : ℚ × String :=
  if num < 1 / 10 ^ 12 then (10 ^ 15, "f")
  else if num < 1 / 10 ^ 9 then (10 ^ 12, "p")
  else if num < 1 / 10 ^ 6 then (10 ^ 9, "n")
  else if num < 1 / 10 ^ 3 then (10 ^ 6, "u")
  else if num < 1 then (10 ^ 3, "m")
  else if num < 10 ^ 3 then (1, "")
  else if num < 10 ^ 6 then (1 / 10 ^ 3, "k")
  else if num < 10 ^ 9 then (1 / 10 ^ 6, "M")
  else if num < 10 ^ 12 then (1 / 10 ^ 9, "G")
  else (1 / 10 ^ 12, "T")

/-!
### benchutils.bettertimeit

The probing loop `for i in range(32)` measures `runtime = timer.timeit(loops)`,
breaks as soon as `runtime > mintime`, and otherwise multiplies `loops` by an
adaptive power of two.  After the loop the last observed `runtime` (the Python
loop variable that survives the loop) is appended to `numrepeat - 1` fresh
repeat timings and everything is divided by the final `loops`.
-/

/-- Outcome of the probing loop of `bettertimeit`: the final loop count, the
last observed runtime, whether the `runtime > mintime` break was taken, and how
many timer probes were made (the bookkeeping for the loop counter `i`). -/
structure ProbeResult where
  loops : ℕ
  runtime : ℚ
  converged : Bool
  rounds : ℕ
deriving DecidableEq

/-- Embedding of the `elif` ladder that grows `loops` when the probe did not
exceed `mintime`. -/
def growLoops (mintime runtime : ℚ) (loops : ℕ) : ℕ :=
  if mintime / 2 < runtime then loops * 2
  else if mintime / 4 < runtime then loops * 4
  else if mintime / 8 < runtime then loops * 8
  else if mintime / 16 < runtime then loops * 2
  else if mintime / 32 < runtime then loops * 8
  else if mintime / 64 < runtime then loops * 8
  else loops * 2

/-- Embedding of the probing loop of `bettertimeit`.  `f loops` is the timer
reading for `loops` iterations; `rt` carries the value of the Python variable
`runtime` from the previous round (it is dead at the initial call). -/
def probeGo (f : ℕ → ℚ) (mintime : ℚ) : ℕ → ℕ → ℚ → ProbeResult
  | 0, loops, rt => ⟨loops, rt, false, 0⟩
  | fuel + 1, loops, _ =>
    let runtime := f loops
    if mintime < runtime then ⟨loops, runtime, true, 1⟩
    else
      let r := probeGo f mintime fuel (growLoops mintime runtime loops) runtime
      { r with rounds := r.rounds + 1 }

/-- Embedding of `benchutils.bettertimeit` for a deterministic timer `f`:
returns the list of per-iteration times and the final loop count.  The
`numrepeat - 1` fresh repeat readings are taken at the final `loops`, the last
probe reading is appended, and everything is divided by `loops`. -/
def bettertimeit (f : ℕ → ℚ) (mintime : ℚ) (numrepeat : ℕ) : List ℚ × ℕ :=
  let r := probeGo f mintime 32 1 0
  let loops := r.loops
  let results := List.replicate (numrepeat - 1) (f loops) ++ [r.runtime]
  (results.map (fun x => x / (loops : ℚ)), loops)

/-!
### benchutils.runbenchmarks

The orchestration loop iterates the sorted benchmark list (outer) and the
sorted arena list (inner); the two nested `for` loops with an early `return`
are embedded as one recursion over the flattened cross product, which visits
the cells in exactly the same order.  Entries carry the index that the source
computes as the position of the function name in `nsorted(funcnames)`.  The
second component of the result is the list of cells for which `bettertimeit`
was invoked, in order — the measurement log used to state the "no further
timer calls" parts of the claims.
-/

/-- One entry of `benchlist` (a flattened, sorted benchmark tuple), plus the
row index `benchindices[benchfile][benchname]`. -/
structure BenchEntry where
  benchfile : String
  benchname : String
  benchsetup : String
  benchstring : String
  benchindex : ℕ
deriving DecidableEq

/-- One entry of `arenalist` (a flattened, sorted arena tuple), plus the
column index `arenaindices[arenafile][arenaname]`. -/
structure ArenaEntry where
  arenafile : String
  arenaname : String
  arenasetup : String
  arenaindex : ℕ
deriving DecidableEq

/-- The trial dict built per cell by `runbenchmarks`.  The fields `arenapre`
and `arenasuf` are the source's `arenaprefix` and `arenasuffix` (the two
halves of `arenaname.split(name, 1)`).  `loops`, `mintime` and `times` are
`None` before measurement. -/
structure Trial where
  arenafile : String
  arenaindex : ℕ
  arenaname : String
  arenapre : String
  arenasuf : String
  benchfile : String
  benchindex : ℕ
  benchname : String
  benchstring : String
  loops : Option ℕ
  mintime : Option ℚ
  setupstring : String
  times : Option (List ℚ)
deriving DecidableEq

/-- Worker for `pySplit1`: split a character list at the first occurrence of
`pat`, or return `none` when `pat` does not occur. -/
def splitOnce (pat : List Char) : List Char → Option (List Char × List Char)
  | [] => if pat.isPrefixOf ([] : List Char) then some ([], []) else none
  | c :: cs =>
    if pat.isPrefixOf (c :: cs) then some ([], (c :: cs).drop pat.length)
    else
      match splitOnce pat cs with
      | none => none
      | some (a, b) => some (c :: a, b)

/-- Models Python `s.split(pat, 1)` unpacked into two names.  When `pat` does
not occur Python raises on the unpacking; `runbenchmarks` never hits that case
because every arena function name contains the benchmark base name, and we
return `(s, "")` there. -/
def pySplit1 (s pat : String) : String × String :=
  match splitOnce pat.data s.data with
  | some (a, b) => (String.mk a, String.mk b)
  | none => (s, "")

/-- Models Python `min(times)`; the empty case raises in Python and is never
reached here (`bettertimeit` returns at least one time), `0` is a sentinel. -/
def minList : List ℚ → ℚ
  | [] => 0
  | x :: xs => xs.foldl min x

/-- The trial dict as first built, before measurement (`loops`, `mintime` and
`times` still `None`). -/
def pretrial (name : String) (c : BenchEntry × ArenaEntry) : Trial :=
  let ps := pySplit1 c.2.arenaname name
  { arenafile := c.2.arenafile
    arenaindex := c.2.arenaindex
    arenaname := c.2.arenaname
    arenapre := ps.1
    arenasuf := ps.2
    benchfile := c.1.benchfile
    benchindex := c.1.benchindex
    benchname := c.1.benchname
    benchstring := c.1.benchstring
    loops := none
    mintime := none
    setupstring := c.1.benchsetup ++ c.2.arenasetup
    times := none }

/-- Measurement step of the loop body: `times, loops = bettertimeit(...)`
followed by `trial.update(loops=..., mintime=min(times), times=...)`.  The
timer capability is a deterministic reading per (statements, setup, loops). -/
def measureTrial (mintime : ℚ) (numrepeat : ℕ)
    (timer : String → String → ℕ → ℚ) (t : Trial) : Trial :=
  let tl := bettertimeit (timer t.benchstring t.setupstring) mintime numrepeat
  { t with loops := some tl.2, mintime := some (minList tl.1), times := some tl.1 }

/-- The skip test `trialfilter is not None and trialfilter(trial) is False`. -/
def skipsB (trialfilter : Option (Trial → PyVal)) (t : Trial) : Bool :=
  match trialfilter with
  | none => false
  | some f => pyIsFalse (f t)

/-- The cancel test `trialcallback is not None and trialcallback(trial) is False`. -/
def stopsB (trialcallback : Option (Trial → PyVal)) (t : Trial) : Bool :=
  match trialcallback with
  | none => false
  | some f => pyIsFalse (f t)

/-- The body of the two nested loops of `runbenchmarks`, over the flattened
cell sequence.  Returns the collected results and the measurement log. -/
def runCells (name : String) (mintime : ℚ) (numrepeat : ℕ)
    (timer : String → String → ℕ → ℚ)
    (trialfilter trialcallback : Option (Trial → PyVal)) :
    List (BenchEntry × ArenaEntry) → List Trial × List (BenchEntry × ArenaEntry)
  | [] => ([], [])
  | c :: rest =>
    let trial := pretrial name c
    if skipsB trialfilter trial then
      runCells name mintime numrepeat timer trialfilter trialcallback rest
    else
      let post := measureTrial mintime numrepeat timer trial
      if stopsB trialcallback post then ([post], [c])
      else
        let r := runCells name mintime numrepeat timer trialfilter trialcallback rest
        (post :: r.1, c :: r.2)

/-- Embedding of the measurement loop of `benchutils.runbenchmarks`: benchmark
list outer, arena list inner. -/
def runbenchmarks (name : String) (mintime : ℚ) (numrepeat : ℕ)
    (timer : String → String → ℕ → ℚ)
    (trialfilter trialcallback : Option (Trial → PyVal))
    (benchlist : List BenchEntry) (arenalist : List ArenaEntry) :
    List Trial × List (BenchEntry × ArenaEntry) :=
  runCells name mintime numrepeat timer trialfilter trialcallback
    (benchlist.flatMap (fun b => arenalist.map (fun a => (b, a))))

/-!
### printutils.BenchPrinter

`BenchPrinter.__init__` groups the result list by `(benchfile, arenafile)`
and builds one table per group with `_build_table`.  Dicts are modelled as
insertion-ordered association lists with overwrite-on-assignment.
-/

/-- Association-list read, `d.get(k)`. -/
def alGetK {κ α : Type} [DecidableEq κ] (l : List (κ × α)) (k : κ) : Option α :=
  (l.find? (fun p => decide (p.1 = k))).map Prod.snd

/-- Association-list write, `d[k] = v` on an insertion-ordered dict:
overwrite in place if present, append otherwise. -/
def alUpdateK {κ α : Type} [DecidableEq κ] (l : List (κ × α)) (k : κ) (v : α) :
    List (κ × α) :=
  if l.any (fun p => decide (p.1 = k)) then
    l.map (fun p => if p.1 = k then (k, v) else p)
  else l ++ [(k, v)]

/-- The per-cell dict used as a table element by `BenchPrinter`.  The fields
from `isbest` on are written by the units/rank pass of `_build_table`; at
construction they hold placeholder values (the Python dict simply lacks the
keys until that pass). -/
structure Datum where
  arenaindex : ℕ
  arenaname : String
  arenashort : String
  benchindex : ℕ
  benchname : String
  benchshort : String
  loops : Option ℕ
  seconds : ℚ
  trialdata : Trial
  isbest : Bool
  rank : ℕ
  reltime : ℚ
  scale : ℚ
  time : ℚ
  units : String
  sreltime : String
  stime : String
deriving DecidableEq

/-- Placeholder trial (used only for `headD` defaults of rows that are never
empty). -/
def defaultTrial : Trial :=
  { arenafile := "", arenaindex := 0, arenaname := "", arenapre := "",
    arenasuf := "", benchfile := "", benchindex := 0, benchname := "",
    benchstring := "", loops := none, mintime := none, setupstring := "",
    times := none }

/-- Placeholder datum (used only for `headD` defaults of rows that are never
empty). -/
def defaultDatum : Datum :=
  { arenaindex := 0, arenaname := "", arenashort := "", benchindex := 0,
    benchname := "", benchshort := "", loops := none, seconds := 0,
    trialdata := defaultTrial, isbest := false, rank := 0, reltime := 0,
    scale := 0, time := 0, units := "", sreltime := "", stime := "" }

/-- Stands for CPython float formatting `'%.3g' % x`.  The digits of the
rendered string are a property of binary floating point outside this
embedding; no claim below inspects them, so any total rendering serves.  We
use the exact rational rendering. -/
def format3g (q : ℚ) : String :=
  toString q

/-- Python `sorted(prefix, key=len, reverse=True)`: stable descending by
length. -/
def sortLenDesc (ps : List String) : List String :=
  List.insertionSort (fun a b => b.length ≤ a.length) ps

/-- Embedding of `BenchPrinter._strip_prefix` for a list argument (the source
wraps a lone string into a list first): strip the longest matching element. -/
def stripPre (prefixes : Option (List String)) (sval : String) : String :=
  match prefixes with
  | none => sval
  | some ps =>
    match (sortLenDesc ps).find? (fun p => p.data.isPrefixOf sval.data) with
    | some p => String.mk (sval.data.drop p.data.length)
    | none => sval

/-- The datum dict as first built by `_build_table` from one trial.
`seconds = trial['mintime']` (always a measured trial there; `0` stands for
the unreachable `None` case). -/
def mkDatum (aps bps : Option (List String)) (t : Trial) : Datum :=
  { arenaindex := t.arenaindex
    arenaname := t.arenaname
    arenashort := stripPre aps t.arenaname
    benchindex := t.benchindex
    benchname := t.benchname
    benchshort := stripPre bps t.benchname
    loops := t.loops
    seconds := t.mintime.getD 0
    trialdata := t
    isbest := false
    rank := 0
    reltime := 0
    scale := 0
    time := 0
    units := ""
    sreltime := ""
    stime := "" }

/-- One step of the grouping loop of `_build_table`:
`bybench[benchindex][arenaindex] = datum` on nested dicts. -/
def groupStep (aps bps : Option (List String))
    (bybench : List (ℕ × List (ℕ × Datum))) (t : Trial) :
    List (ℕ × List (ℕ × Datum)) :=
  let datum := mkDatum aps bps t
  let inner := (alGetK bybench t.benchindex).getD []
  alUpdateK bybench t.benchindex (alUpdateK inner t.arenaindex datum)

/-- The grouping loop of `_build_table`. -/
def groupTrials (aps bps : Option (List String)) (trials : List Trial) :
    List (ℕ × List (ℕ × Datum)) :=
  trials.foldl (groupStep aps bps) []

/-- Lookup in `ranks = dict(zip(sortedvals, range(1, len(sortedvals) + 1)))`:
a dict built from a pair sequence maps a key to the value of its LAST
occurrence, so `ranksGet` reads the last matching pair of the zip.  `0`
stands for the KeyError case, unreachable because the key looked up is always
a member of `sortedvals`. -/
def ranksGet (sortedvals : List ℚ) (v : ℚ) : ℕ :=
  ((((sortedvals.zip (List.range' 1 sortedvals.length)).filter
      (fun p => decide (p.1 = v))).getLast?).map Prod.snd).getD 0

/-- `sortedvals = sorted(datum['seconds'] for datum in arenadict.values())`. -/
def sortedvalsOf (al : List (ℕ × Datum)) : List ℚ :=
  List.insertionSort (fun a b : ℚ => a ≤ b) (al.map (fun p => p.2.seconds))

/-- The `datum.update(...)` of the units/rank pass for one datum of the row
`al`: `minval = sortedvals[0]`, `maxval = sortedvals[-1]`, the ranks dict
lookup, the unit scale and the two formatted strings.
`sortedvals[0]`/`sortedvals[-1]` would raise on an empty row; rows built by
the grouping loop are never empty and `0` is a sentinel. -/
def updDatum (al : List (ℕ × Datum)) (d : Datum) : Datum :=
  let sortedvals := sortedvalsOf al
  let minval := sortedvals.headD 0
  let maxval := sortedvals.getLastD 0
  let su := best_units maxval
  let seconds := d.seconds
  { d with
    isbest := decide (seconds = minval)
    rank := ranksGet sortedvals seconds
    reltime := seconds / minval
    scale := su.1
    time := seconds * su.1
    units := su.2 ++ "s"
    sreltime := format3g (seconds / minval)
    stime := format3g (seconds * su.1) }

/-- The units/rank pass of `_build_table` over one row (`arenadict`): update
every datum of the row in place. -/
def processRowAL (al : List (ℕ × Datum)) : List (ℕ × Datum) :=
  al.map (fun p => (p.1, updDatum al p.2))

/-- Order on dict items used by `sorted(bybench.items())` and
`sorted(arenadict.items())`; the keys are distinct, so only the integer key
matters. -/
def fstLe {α : Type} (a b : ℕ × α) : Prop :=
  a.1 ≤ b.1

instance {α : Type} : DecidableRel (@fstLe α) :=
  fun a b => inferInstanceAs (Decidable (a.1 ≤ b.1))

instance {α : Type} : IsTotal (ℕ × α) fstLe :=
  ⟨fun _ _ => Nat.le_total _ _⟩

instance {α : Type} : IsTrans (ℕ × α) fstLe :=
  ⟨fun _ _ _ => Nat.le_trans⟩

/-- Embedding of `BenchPrinter._build_table`: group, run the units/rank pass,
then lay the rows out sorted by bench index and each row sorted by arena
index. -/
def buildTable (aps bps : Option (List String)) (trials : List Trial) :
    List (List Datum) :=
  let bybench := groupTrials aps bps trials
  let processed := bybench.map (fun p => (p.1, processRowAL p.2))
  (List.insertionSort fstLe processed).map
    (fun p => (List.insertionSort fstLe p.2).map Prod.snd)

/-- One step of the `resultdict` grouping of `BenchPrinter.__init__`:
append the trial to the list of its `(benchfile, arenafile)` key. -/
def resultStep (acc : List ((String × String) × List Trial)) (t : Trial) :
    List ((String × String) × List Trial) :=
  let key := (t.benchfile, t.arenafile)
  alUpdateK acc key (((alGetK acc key).getD []) ++ [t])

/-- The `resultdict` grouping of `BenchPrinter.__init__`: group the trial
list by `(benchfile, arenafile)`, preserving order. -/
def resultGroups (results : List Trial) :
    List ((String × String) × List Trial) :=
  results.foldl resultStep []

/-- The `tables` built by `BenchPrinter.__init__`: one table per
`(benchfile, arenafile)` group. -/
def tablesOf (aps bps : Option (List String)) (results : List Trial) :
    List ((String × String) × List (List Datum)) :=
  (resultGroups results).map (fun p => (p.1, buildTable aps bps p.2))

/-!
### printutils.BenchPrinter.to_gfm

`to_gfm` first rejects `relative and rank`, then renders: header row from
`table[0]`, one label plus one cell string per row, column widths, centering,
and a header bar inserted below the header.  The places where the Python code
can raise IndexError (`table[0]`, `row[0]`, `maxwidths[i]` for a row longer
than the header) are explicit `Except.error` checks, tested in the same order
in which the source would first raise.
-/

/-- Embedding of CPython `str.center`: no-op when the string already fills the
width, otherwise pad with the extra space computed exactly as CPython does
(`left = marg / 2 + (marg & width & 1)`). -/
def pyCenter (s : String) (width : ℕ) : String :=
  if width ≤ s.length then s
  else
    let marg := width - s.length
    let left := marg / 2 + (marg &&& width &&& 1)
    String.mk (List.replicate left ' ') ++ s ++
      String.mk (List.replicate (marg - left) ' ')

/-- One data cell of the markdown table, with first and second best
emphasised (`rowlen` is `len(row)` of the datum row). -/
def cellString (rowlen : ℕ) (relative rank : Bool) (d : Datum) : String :=
  let val := if relative then d.sreltime else if rank then toString d.rank else d.stime
  if d.rank = 1 then " __" ++ val ++ "__ "
  else if d.rank = 2 ∧ 2 < rowlen then " *" ++ val ++ "* "
  else " " ++ val ++ " "

/-- The row label cell (`row[0]` supplies the benchmark name and units). -/
def rowLabel (relative rank : Bool) (d : Datum) : String :=
  if relative || rank then " __" ++ d.benchshort ++ "__ "
  else " __" ++ d.benchshort ++ "__ (`" ++ d.units ++ "`) "

/-- Embedding of `BenchPrinter.to_gfm`.  `os.linesep` is taken as a newline
(the POSIX value). -/
def to_gfm (table : List (List Datum)) (relative rank : Bool) :
    Except String String :=
  if relative && rank then
    Except.error "ValueError: relative and rank keywords cannot both be True"
  else
    match table with
    | [] => Except.error "IndexError: list index out of range"
    | row0 :: _ =>
      let column_names :=
        "__Bench__ \\ __Func__ " :: row0.map (fun d => " __" ++ d.arenashort ++ "__ ")
      if table.any (fun row => row.isEmpty) then
        Except.error "IndexError: list index out of range"
      else
        -- the maxwidths loop writes maxwidths[i] for every cell of every data
        -- row; a data row (label plus row.length cells) overruns the header
        -- row's width list exactly when its table row is longer than table[0]
        if table.any (fun row => row0.length < row.length) then
          Except.error "IndexError: list index out of range"
        else
          let crows := table.map (fun row =>
            rowLabel relative rank (row.headD defaultDatum) ::
              row.map (cellString row.length relative rank))
          let data := column_names :: crows
          let maxwidths := (List.range column_names.length).map (fun i =>
            data.foldl (fun acc row => max acc (((row.get? i).map String.length).getD 0)) 0)
          let justified := data.map (fun row =>
            row.mapIdx (fun i sval =>
              let w := (maxwidths.get? i).getD 0
              if i = 0 then String.mk (List.replicate (w - sval.length) ' ') ++ sval
              else pyCenter sval w))
          let headerbar := maxwidths.map (fun len =>
            ":" ++ String.mk (List.replicate (len - 2) '-') ++ ":")
          let headerbar2 :=
            match headerbar with
            | [] => []
            | h :: t => (" " ++ String.mk (h.data.drop 1)) :: t
          let data2 :=
            match justified with
            | [] => []
            | h :: t => h :: headerbar2 :: t
          Except.ok (String.intercalate "\n"
            (data2.map (fun row => "|" ++ String.intercalate "|" row ++ "|")))

/-!
### Concrete inputs used by witnesses and counterexamples
-/

/-- A pathologically fast deterministic timer: the probing loop exhausts all
32 rounds without ever exceeding `mintime = 1`. -/
def cexF : ℕ → ℚ :=
  fun n => (n : ℚ) / 2 ^ 50

/-- A benign deterministic timer whose reading equals the loop count. -/
def demoTimer : String → String → ℕ → ℚ :=
  fun _ _ n => (n : ℚ)

/-- Two demo benchmark entries (base function name "f"). -/
def demoB0 : BenchEntry :=
  ⟨"benchs/bench_f.py", "time_f_build", "import os\n", "f()\n", 0⟩

def demoB1 : BenchEntry :=
  ⟨"benchs/bench_f.py", "time_f_scan", "import os\n", "f(10)\n", 1⟩

/-- Three demo arena entries. -/
def demoA0 : ArenaEntry :=
  ⟨"arenas/arena_f.py", "f_alpha", "setup_alpha\n", 0⟩

def demoA1 : ArenaEntry :=
  ⟨"arenas/arena_f.py", "f_beta", "setup_beta\n", 1⟩

def demoA2 : ArenaEntry :=
  ⟨"arenas/arena_f.py", "f_gamma", "setup_gamma\n", 2⟩

/-- The 2 × 3 demo matrix in orchestration order. -/
def demoCells : List (BenchEntry × ArenaEntry) :=
  [demoB0, demoB1].flatMap (fun b => [demoA0, demoA1, demoA2].map (fun a => (b, a)))

/-- A trial filter that returns the Python `False` exactly for the candidate
`f_beta` and `True` for every other cell. -/
def demoFilt : Trial → PyVal :=
  fun t => PyVal.bool (decide (t.arenaname ≠ "f_beta"))

/-- A trial callback that returns the Python `False` exactly on the second
completed trial of the demo matrix (cell (time_f_build, f_beta)) and `None`
otherwise. -/
def demoCb : Trial → PyVal :=
  fun t =>
    if t.benchname = "time_f_build" ∧ t.arenaname = "f_beta" then PyVal.bool false
    else PyVal.none

/-- A measured trial with bench row 0 and the given column and minimum time,
used to build small concrete tables. -/
def tieTrial (ai : ℕ) (sec : ℚ) : Trial :=
  { arenafile := "arenas/arena_f.py", arenaindex := ai, arenaname := "f",
    arenapre := "", arenasuf := "", benchfile := "benchs/bench_f.py",
    benchindex := 0, benchname := "time_f", benchstring := "f()\n",
    loops := some 2, mintime := some sec, setupstring := "",
    times := some [sec] }

/-- Two cells in one row with the equal lowest time. -/
def demoTieTrials : List Trial :=
  [tieTrial 0 1, tieTrial 1 1]

/-- Two cells in one row with distinct times. -/
def demoDistinctTrials : List Trial :=
  [tieTrial 0 1, tieTrial 1 2]

/-- The one table group built from `demoDistinctTrials`. -/
def demoKT : (String × String) × List (List Datum) :=
  (tablesOf none none demoDistinctTrials).headD (("", ""), [])

/-- Its single row. -/
def demoRow : List Datum :=
  demoKT.2.headD []

/-- Its first cell. -/
def demoDat : Datum :=
  demoRow.headD defaultDatum

/-- The one table group built from `demoTieTrials` (for the rank claim). -/
def demoTieKT : (String × String) × List (List Datum) :=
  (tablesOf none none demoTieTrials).headD (("", ""), [])

/-- Its single row. -/
def demoTieRow : List Datum :=
  demoTieKT.2.headD []

/-- Its first cell. -/
def demoTieDat : Datum :=
  demoTieRow.headD defaultDatum

/-- A one-row, one-cell table used as the well-formed table of the rendering
witness. -/
def demoTable : List (List Datum) :=
  [[defaultDatum]]

/-!
### Helper lemmas about the probing loop
-/

theorem probe_rounds_le (f : ℕ → ℚ) (mintime : ℚ) :
    ∀ fuel loops rt, (probeGo f mintime fuel loops rt).rounds ≤ fuel := by
  intro fuel
  induction fuel with
  | zero => intro loops rt; simp [probeGo]
  | succ n ih =>
    intro loops rt
    simp only [probeGo]
    split
    · simp
    · simpa using Nat.succ_le_succ (ih _ _)

theorem growLoops_pos (mintime runtime : ℚ) (loops : ℕ) (h : 1 ≤ loops) :
    1 ≤ growLoops mintime runtime loops := by
  unfold growLoops
  split_ifs <;> exact Nat.mul_pos h (by norm_num)

theorem probe_loops_pos (f : ℕ → ℚ) (mintime : ℚ) :
    ∀ fuel loops rt, 1 ≤ loops → 1 ≤ (probeGo f mintime fuel loops rt).loops := by
  intro fuel
  induction fuel with
  | zero => intro loops rt h; simpa [probeGo] using h
  | succ n ih =>
    intro loops rt h
    simp only [probeGo]
    split
    · simpa using h
    · simpa using ih _ _ (growLoops_pos _ _ _ h)

theorem probe_converged_gt (f : ℕ → ℚ) (mintime : ℚ) :
    ∀ fuel loops rt, (probeGo f mintime fuel loops rt).converged = true →
      mintime < (probeGo f mintime fuel loops rt).runtime := by
  intro fuel
  induction fuel with
  | zero => intro loops rt h; simp [probeGo] at h
  | succ n ih =>
    intro loops rt h
    simp only [probeGo] at h ⊢
    split at h
    · simp_all [probeGo]
    · simp only at h ⊢
      split
      · simp_all
      · exact ih _ _ (by simpa using h)

/-- Claim C1: for `mintime > 0` and a monotone deterministic timer, the
adaptive probe makes at most 32 rounds, `bettertimeit` returns a loop count of
at least 1 equal to the probe's final loop count (also in the degenerate
no-convergence case, where it still returns normally), and when the probe
converged, the returned loop count times the converged probe's per-iteration
time is at least `mintime`. -/
theorem bettertimeit_adaptive (f : ℕ → ℚ) (mintime : ℚ) (numrepeat : ℕ)
    (_hpos : 0 < mintime) (_hmono : Monotone f) :
    (probeGo f mintime 32 1 0).rounds ≤ 32 ∧
    1 ≤ (bettertimeit f mintime numrepeat).2 ∧
    (bettertimeit f mintime numrepeat).2 = (probeGo f mintime 32 1 0).loops ∧
    ((probeGo f mintime 32 1 0).converged = true →
      mintime ≤ ((probeGo f mintime 32 1 0).loops : ℚ) *
        ((probeGo f mintime 32 1 0).runtime / ((probeGo f mintime 32 1 0).loops : ℚ))) := by
  have hL : 1 ≤ (probeGo f mintime 32 1 0).loops := probe_loops_pos f mintime 32 1 0 le_rfl
  refine ⟨probe_rounds_le f mintime 32 1 0, ?_, rfl, ?_⟩
  · exact hL
  · intro hc
    have hrt := probe_converged_gt f mintime 32 1 0 hc
    have hne : ((probeGo f mintime 32 1 0).loops : ℚ) ≠ 0 := by
      have h0 : (0 : ℚ) < ((probeGo f mintime 32 1 0).loops : ℚ) := by exact_mod_cast hL
      exact ne_of_gt h0
    rw [mul_comm, div_mul_cancel₀ _ hne]
    exact le_of_lt hrt

/-- Witness for claim C1 at the identity timer, `mintime = 1`, `numrepeat = 3`. -/
theorem bettertimeit_adaptive_witness :
    (probeGo (fun n => (n : ℚ)) 1 32 1 0).rounds ≤ 32 ∧
    1 ≤ (bettertimeit (fun n => (n : ℚ)) 1 3).2 ∧
    (bettertimeit (fun n => (n : ℚ)) 1 3).2 = (probeGo (fun n => (n : ℚ)) 1 32 1 0).loops ∧
    ((probeGo (fun n => (n : ℚ)) 1 32 1 0).converged = true →
      1 ≤ ((probeGo (fun n => (n : ℚ)) 1 32 1 0).loops : ℚ) *
        ((probeGo (fun n => (n : ℚ)) 1 32 1 0).runtime /
          ((probeGo (fun n => (n : ℚ)) 1 32 1 0).loops : ℚ))) :=
  bettertimeit_adaptive (fun n => (n : ℚ)) 1 3 (by norm_num) Nat.mono_cast

/-- Claim C4 counterexample: at the positive row maximum `10⁻¹⁶` the chosen
scale is the bottom of the ladder (`10¹⁵`, femto) and the scaled value falls
below 1, so the claimed bound does not hold for every positive maximum. -/
theorem best_units_range_counterexample :
    (best_units (1 / 10 ^ 16)).1 = 10 ^ 15 ∧
    ¬ (1 ≤ (1 / 10 ^ 16 : ℚ) * (best_units (1 / 10 ^ 16)).1) := by
  constructor
  · norm_num [best_units]
  · norm_num [best_units]

/-- Claim C4, amended: for a row maximum within the span of the fixed
femto-to-tera ladder (`10⁻¹⁵ ≤ m < 10¹⁵`) the chosen scale satisfies
`1 ≤ m * scale < 1000`; the boundary cases behave as claimed (`m = 1`
selects scale 1 with empty prefix, `m = 999e-3` selects milli, `m = 1000e-3`
selects the base scale). -/
theorem best_units_range (m : ℚ) (h1 : 1 / 10 ^ 15 ≤ m) (h2 : m < 10 ^ 15) :
    (1 ≤ m * (best_units m).1 ∧ m * (best_units m).1 < 1000) ∧
    best_units 1 = (1, "") ∧
    best_units (999 / 1000) = (10 ^ 3, "m") ∧
    best_units (1000 / 1000) = (1, "") := by
  refine ⟨?_, by norm_num [best_units], by norm_num [best_units], by norm_num [best_units]⟩
  unfold best_units
  split_ifs with c1 c2 c3 c4 c5 c6 c7 c8 c9 <;>
    refine ⟨?_, ?_⟩ <;> simp only [] <;> linarith

/-- Witness for claim C4 at `m = 1`. -/
theorem best_units_range_witness :
    (1 ≤ (1 : ℚ) * (best_units 1).1 ∧ (1 : ℚ) * (best_units 1).1 < 1000) ∧
    best_units 1 = (1, "") ∧
    best_units (999 / 1000) = (10 ^ 3, "m") ∧
    best_units (1000 / 1000) = (1, "") :=
  best_units_range 1 (by norm_num) (by norm_num)

unseal Rat.mul Rat.inv in
/-- Claim C7 counterexample: with the degenerate timer `cexF` (probe never
exceeds `mintime`), the reused probe reading is not the first entry of the
returned list — the first entry is a fresh repeat reading. -/
theorem bettertimeit_reuse_position_counterexample :
    ¬ ((bettertimeit cexF 1 2).1.headD 0 =
        (probeGo cexF 1 32 1 0).runtime / ((bettertimeit cexF 1 2).2 : ℚ)) := by
  decide

/-- Claim C7, amended: for `numrepeat ≥ 1` the returned list has exactly
`numrepeat` entries, each an observed timer reading divided by the final
loop count; the last probing run's reading is reused as the LAST entry of
the returned list (it is the chronologically first repetition), so only
`numrepeat - 1` fresh repeat timings are performed after probing. -/
theorem bettertimeit_repeat_times (f : ℕ → ℚ) (mintime : ℚ) (numrepeat : ℕ)
    (h : 1 ≤ numrepeat) :
    (bettertimeit f mintime numrepeat).1.length = numrepeat ∧
    (bettertimeit f mintime numrepeat).1 =
      List.replicate (numrepeat - 1)
          (f (probeGo f mintime 32 1 0).loops / ((probeGo f mintime 32 1 0).loops : ℚ)) ++
        [(probeGo f mintime 32 1 0).runtime / ((probeGo f mintime 32 1 0).loops : ℚ)] := by
  unfold bettertimeit
  constructor
  · simp only [List.length_map, List.length_append, List.length_replicate,
      List.length_singleton]
    omega
  · simp [List.map_replicate]

/-- Witness for claim C7 at the identity timer, `mintime = 1`, `numrepeat = 3`. -/
theorem bettertimeit_repeat_times_witness :
    (bettertimeit (fun n => (n : ℚ)) 1 3).1.length = 3 ∧
    (bettertimeit (fun n => (n : ℚ)) 1 3).1 =
      List.replicate 2
          ((fun n => (n : ℚ)) (probeGo (fun n => (n : ℚ)) 1 32 1 0).loops /
            ((probeGo (fun n => (n : ℚ)) 1 32 1 0).loops : ℚ)) ++
        [(probeGo (fun n => (n : ℚ)) 1 32 1 0).runtime /
          ((probeGo (fun n => (n : ℚ)) 1 32 1 0).loops : ℚ)] :=
  bettertimeit_repeat_times (fun n => (n : ℚ)) 1 3 (by norm_num)

/-- Claim C9: `nsorted` permutes its input into the order of the mixed
text/number keys (digit runs compared as integers), and in particular
`nsorted ["a2", "a10", "a1"] = ["a1", "a2", "a10"]`. -/
theorem nsorted_natural_order :
    (∀ l : List String, (nsorted l).Perm l ∧ (nsorted l).Pairwise nkeyle) ∧
    nsorted ["a2", "a10", "a1"] = ["a1", "a2", "a10"] := by
  refine ⟨fun l => ⟨List.perm_insertionSort nkeyle l, ?_⟩, by decide⟩
  exact List.sorted_insertionSort nkeyle l

unseal Rat.mul Rat.inv in
/-- Claim C6: with a trial filter supplied (and no callback), exactly the
cells the filter does not reject with the Python `False` are measured, in
order, and the result list holds exactly their measured trials; rejected
cells appear neither in the measurement log nor in the results.  In the 2 × 3
demo matrix, a filter rejecting the candidate `f_beta` yields exactly 4
trials and a log without the rejected candidate's cells. -/
theorem runbenchmarks_filter :
    (∀ (name : String) (mt : ℚ) (nr : ℕ) (timer : String → String → ℕ → ℚ)
        (f : Trial → PyVal) (cells : List (BenchEntry × ArenaEntry)),
      runCells name mt nr timer (some f) none cells =
        ((cells.filter (fun c => ! pyIsFalse (f (pretrial name c)))).map
            (fun c => measureTrial mt nr timer (pretrial name c)),
          cells.filter (fun c => ! pyIsFalse (f (pretrial name c))))) ∧
    (runbenchmarks "f" 1 2 demoTimer (some demoFilt) none
        [demoB0, demoB1] [demoA0, demoA1, demoA2]).1.length = 4 ∧
    (runbenchmarks "f" 1 2 demoTimer (some demoFilt) none
        [demoB0, demoB1] [demoA0, demoA1, demoA2]).2 =
      [(demoB0, demoA0), (demoB0, demoA2), (demoB1, demoA0), (demoB1, demoA2)] := by
  refine ⟨?_, by decide, by decide⟩
  intro name mt nr timer f cells
  induction cells with
  | nil => simp [runCells]
  | cons c rest ih =>
    by_cases h : pyIsFalse (f (pretrial name c))
    · simp only [runCells, skipsB, h, if_true, List.filter_cons]
      simpa [h] using ih
    · simp only [runCells, skipsB, h, if_false, Bool.false_eq_true, stopsB,
        List.filter_cons]
      simp [h, ih]

/-- Claim C5: with a callback supplied, if the run's sequence of completed
(filter-accepted) cells starts with a segment `pre` on which the callback
does not return the Python `False` and the callback returns `False` on the
next completed cell `c0`, the run stops there: the result list is exactly the
measured trials of `pre ++ [c0]` (returned normally) and the measurement log
shows no measurement beyond `pre ++ [c0]`. -/
theorem runbenchmarks_cancel (name : String) (mt : ℚ) (nr : ℕ)
    (timer : String → String → ℕ → ℚ)
    (filt cb : Option (Trial → PyVal))
    (cells pre suf : List (BenchEntry × ArenaEntry)) (c0 : BenchEntry × ArenaEntry)
    (hsplit : cells.filter (fun c => ! skipsB filt (pretrial name c)) = pre ++ c0 :: suf)
    (hpre : ∀ c ∈ pre, stopsB cb (measureTrial mt nr timer (pretrial name c)) = false)
    (hc0 : stopsB cb (measureTrial mt nr timer (pretrial name c0)) = true) :
    runCells name mt nr timer filt cb cells =
      ((pre ++ [c0]).map (fun c => measureTrial mt nr timer (pretrial name c)),
        pre ++ [c0]) := by
  induction cells generalizing pre with
  | nil => cases pre <;> simp_all
  | cons c rest ih =>
    rw [List.filter_cons] at hsplit
    by_cases hs : skipsB filt (pretrial name c)
    · simp only [hs, Bool.not_true, if_false] at hsplit
      simp only [runCells, hs, if_true]
      exact ih pre hsplit hpre
    · simp only [hs, Bool.not_false, if_true] at hsplit
      cases pre with
      | nil =>
        simp only [List.nil_append, List.cons.injEq] at hsplit
        obtain ⟨hc, _⟩ := hsplit
        subst hc
        simp only [runCells, hs, Bool.false_eq_true, if_false, hc0, if_true]
        simp
      | cons p pre2 =>
        simp only [List.cons_append, List.cons.injEq] at hsplit
        obtain ⟨hc, hrest⟩ := hsplit
        subst hc
        have hstop := hpre c (List.mem_cons_self _ _)
        simp only [runCells, hs, Bool.false_eq_true, if_false, hstop]
        rw [ih pre2 hrest (fun x hx => hpre x (List.mem_cons_of_mem _ hx))]
        simp

unseal Rat.mul Rat.inv in
/-- Witness for claim C5: in the 2 × 3 demo matrix with no filter and the
callback that returns `False` on the second completed trial, the run returns
exactly the first two measured trials and measures nothing else. -/
theorem runbenchmarks_cancel_witness :
    runCells "f" 1 2 demoTimer none (some demoCb) demoCells =
      (([(demoB0, demoA0)] ++ [(demoB0, demoA1)]).map
          (fun c => measureTrial 1 2 demoTimer (pretrial "f" c)),
        [(demoB0, demoA0)] ++ [(demoB0, demoA1)]) :=
  runbenchmarks_cancel "f" 1 2 demoTimer none (some demoCb) demoCells
    [(demoB0, demoA0)] [(demoB0, demoA2), (demoB1, demoA0), (demoB1, demoA1), (demoB1, demoA2)]
    (demoB0, demoA1) (by decide) (by decide) (by decide)

/-- Claim C10: only the exact Python `False` returned by a hook has an
effect — `None`, `0`, an empty string, or any value other than `False` is
not treated as `False`, and a run whose filter and callback never return
`False` behaves exactly like a run with no hooks at all. -/
theorem hooks_only_false :
    (∀ v : PyVal, v ≠ PyVal.bool false → pyIsFalse v = false) ∧
    pyIsFalse PyVal.none = false ∧
    pyIsFalse (PyVal.int 0) = false ∧
    pyIsFalse (PyVal.str "") = false ∧
    ∀ (name : String) (mt : ℚ) (nr : ℕ) (timer : String → String → ℕ → ℚ)
      (f g : Trial → PyVal) (cells : List (BenchEntry × ArenaEntry)),
      (∀ t, f t ≠ PyVal.bool false) → (∀ t, g t ≠ PyVal.bool false) →
      runCells name mt nr timer (some f) (some g) cells =
        runCells name mt nr timer none none cells := by
  refine ⟨fun v hv => by simp [pyIsFalse, hv], by decide, by decide, by decide, ?_⟩
  intro name mt nr timer f g cells hf hg
  induction cells with
  | nil => rfl
  | cons c rest ih =>
    have hfc : pyIsFalse (f (pretrial name c)) = false := by
      simp [pyIsFalse, hf (pretrial name c)]
    have hgc :
        pyIsFalse (g (measureTrial mt nr timer (pretrial name c))) = false := by
      simp [pyIsFalse, hg (measureTrial mt nr timer (pretrial name c))]
    simp only [runCells, skipsB, stopsB, hfc, hgc, Bool.false_eq_true, if_false, ih]

/-- Witness for claim C10: a filter always returning `None` and a callback
always returning `0` leave the demo run unchanged. -/
theorem hooks_only_false_witness :
    pyIsFalse (PyVal.int 1) = false ∧
    runCells "f" 1 2 demoTimer (some (fun _ => PyVal.none))
        (some (fun _ => PyVal.int 0)) demoCells =
      runCells "f" 1 2 demoTimer none none demoCells :=
  ⟨hooks_only_false.1 (PyVal.int 1) (by decide),
    hooks_only_false.2.2.2.2 "f" 1 2 demoTimer _ _ demoCells
      (fun _ => by decide) (fun _ => by decide)⟩

/-!
### Helper lemmas about the dict model and the table builder
-/

theorem mem_alUpdateK {κ α : Type} [DecidableEq κ] {l : List (κ × α)} {k : κ}
    {v : α} {x : κ × α} (h : x ∈ alUpdateK l k v) : x ∈ l ∨ x = (k, v) := by
  unfold alUpdateK at h
  split at h
  · obtain ⟨p, hp, he⟩ := List.mem_map.mp h
    by_cases hpk : p.1 = k
    · right; rw [if_pos hpk] at he; exact he.symm
    · left; rw [if_neg hpk] at he; exact he ▸ hp
  · rcases List.mem_append.mp h with h1 | h1
    · exact Or.inl h1
    · right; simpa using h1

theorem alUpdateK_ne_nil {κ α : Type} [DecidableEq κ] (l : List (κ × α)) (k : κ)
    (v : α) : alUpdateK l k v ≠ [] := by
  unfold alUpdateK
  split
  · rename_i hany
    intro h
    rw [List.map_eq_nil_iff] at h
    subst h
    simp at hany
  · simp

theorem alGetK_mem {κ α : Type} [DecidableEq κ] {l : List (κ × α)} {k : κ}
    {v : α} (h : alGetK l k = some v) : ∃ kk, (kk, v) ∈ l := by
  unfold alGetK at h
  cases hf : l.find? (fun p => decide (p.1 = k)) with
  | none => rw [hf] at h; simp at h
  | some p =>
    rw [hf] at h
    simp at h
    refine ⟨p.1, ?_⟩
    have hm := List.mem_of_find?_eq_some hf
    rw [← h]
    simpa using hm

theorem groupTrials_inv (aps bps : Option (List String)) (P : Datum → Prop) :
    ∀ (trials : List Trial) (st : List (ℕ × List (ℕ × Datum))),
      (∀ t ∈ trials, P (mkDatum aps bps t)) →
      (∀ p ∈ st, p.2 ≠ [] ∧ ∀ q ∈ p.2, P q.2) →
      ∀ p ∈ trials.foldl (groupStep aps bps) st, p.2 ≠ [] ∧ ∀ q ∈ p.2, P q.2 := by
  intro trials
  induction trials with
  | nil => intro st _ hst; simpa using hst
  | cons t rest ih =>
    intro st htr hst
    simp only [List.foldl_cons]
    apply ih
    · intro u hu; exact htr u (List.mem_cons_of_mem _ hu)
    · intro p hp
      simp only [groupStep] at hp
      rcases mem_alUpdateK hp with hold | hnew
      · exact hst p hold
      · rw [hnew]
        constructor
        · exact alUpdateK_ne_nil _ _ _
        · intro q hq
          rcases mem_alUpdateK hq with hq1 | hq2
          · cases hg : alGetK st t.benchindex with
            | none => rw [hg] at hq1; simp at hq1
            | some al =>
              rw [hg] at hq1
              simp only [Option.getD_some] at hq1
              obtain ⟨kk, hkk⟩ := alGetK_mem hg
              exact (hst (kk, al) hkk).2 q hq1
          · rw [hq2]
            exact htr t (List.mem_cons_self _ _)

theorem resultGroups_aux (P : Trial → Prop) :
    ∀ (l : List Trial) (st : List ((String × String) × List Trial)),
      (∀ t ∈ l, P t) → (∀ p ∈ st, ∀ t ∈ p.2, P t) →
      ∀ p ∈ l.foldl resultStep st, ∀ t ∈ p.2, P t := by
  intro l
  induction l with
  | nil => intro st _ hst; simpa using hst
  | cons t rest ih =>
    intro st hl hst
    simp only [List.foldl_cons]
    apply ih
    · intro u hu; exact hl u (List.mem_cons_of_mem _ hu)
    · intro p hp u hu
      simp only [resultStep] at hp
      rcases mem_alUpdateK hp with hold | hnew
      · exact hst p hold u hu
      · rw [hnew] at hu
        have hu2 : u ∈ ((alGetK st (t.benchfile, t.arenafile)).getD []) ++ [t] := hu
        rcases List.mem_append.mp hu2 with h1 | h1
        · cases hg : alGetK st (t.benchfile, t.arenafile) with
          | none => rw [hg] at h1; simp at h1
          | some al =>
            rw [hg] at h1
            simp only [Option.getD_some] at h1
            obtain ⟨kk, hkk⟩ := alGetK_mem hg
            exact hst (kk, al) hkk u h1
        · rw [List.mem_singleton.mp h1]
          exact hl t (List.mem_cons_self _ _)

theorem resultGroups_sub (results : List Trial) :
    ∀ p ∈ resultGroups results, ∀ t ∈ p.2, t ∈ results := by
  intro p hp t ht
  exact resultGroups_aux (· ∈ results) results [] (fun _ h => h) (by simp) p hp t ht

theorem mkDatum_seconds (aps bps : Option (List String)) (t : Trial) :
    (mkDatum aps bps t).seconds = t.mintime.getD 0 := rfl

theorem updDatum_seconds (al : List (ℕ × Datum)) (d : Datum) :
    (updDatum al d).seconds = d.seconds := rfl

theorem updDatum_reltime (al : List (ℕ × Datum)) (d : Datum) :
    (updDatum al d).reltime = d.seconds / (sortedvalsOf al).headD 0 := rfl

theorem updDatum_rank (al : List (ℕ × Datum)) (d : Datum) :
    (updDatum al d).rank = ranksGet (sortedvalsOf al) d.seconds := rfl

theorem updDatum_isbest (al : List (ℕ × Datum)) (d : Datum) :
    (updDatum al d).isbest = decide (d.seconds = (sortedvalsOf al).headD 0) := rfl

theorem sortedvals_perm (al : List (ℕ × Datum)) :
    (sortedvalsOf al).Perm (al.map (fun p => p.2.seconds)) :=
  List.perm_insertionSort _ _

theorem sortedvals_sorted (al : List (ℕ × Datum)) :
    (sortedvalsOf al).Pairwise (fun a b : ℚ => a ≤ b) :=
  List.sorted_insertionSort _ _

theorem minval_le {al : List (ℕ × Datum)} (hne : al ≠ []) :
    ((sortedvalsOf al).headD 0 ∈ al.map (fun p => p.2.seconds)) ∧
    ∀ x ∈ al.map (fun p => p.2.seconds), (sortedvalsOf al).headD 0 ≤ x := by
  have hperm := sortedvals_perm al
  have hsor := sortedvals_sorted al
  have hVne : al.map (fun p => p.2.seconds) ≠ [] := by
    simpa using hne
  have hSne : sortedvalsOf al ≠ [] := by
    intro h
    exact hVne (h ▸ hperm).symm.eq_nil
  obtain ⟨m, rest, hcons⟩ := List.exists_cons_of_ne_nil hSne
  rw [hcons]
  simp only [List.headD_cons]
  have hmrest : ∀ y ∈ rest, m ≤ y := (List.pairwise_cons.mp (hcons ▸ hsor)).1
  constructor
  · exact hperm.mem_iff.mp (hcons ▸ List.mem_cons_self m rest)
  · intro x hx
    have hxS : x ∈ m :: rest := hcons ▸ hperm.mem_iff.mpr hx
    rcases List.mem_cons.mp hxS with h1 | h1
    · exact h1 ▸ le_refl m
    · exact hmrest x h1

theorem filter_zip_nil {v : ℚ} (s : List ℚ) (ns : List ℕ) (hv : v ∉ s) :
    (s.zip ns).filter (fun p => decide (p.1 = v)) = [] := by
  rw [List.filter_eq_nil_iff]
  intro p hp
  have hmem := List.of_mem_zip hp
  simp only [decide_eq_true_eq]
  intro he
  exact hv (he ▸ hmem.1)

theorem ranksAux :
    ∀ (s : List ℚ) (k : ℕ), 1 ≤ k → s.Pairwise (fun a b : ℚ => a ≤ b) →
      ∀ v ∈ s,
        (((s.zip (List.range' k s.length)).filter
            (fun p => decide (p.1 = v))).getLast?).map Prod.snd =
          some (k - 1 + s.countP (fun x => decide (x ≤ v))) := by
  intro s
  induction s with
  | nil => intro k _ _ v hv; simp at hv
  | cons x rest ih =>
    intro k hk hs v hv
    have hxle : ∀ y ∈ rest, x ≤ y := (List.pairwise_cons.mp hs).1
    have hrest := (List.pairwise_cons.mp hs).2
    rw [List.length_cons, List.range'_succ, List.zip_cons_cons, List.filter_cons]
    by_cases hx : x = v
    · rw [if_pos (by simpa using hx)]
      subst hx
      by_cases hvr : x ∈ rest
      · have ihr := ih (k + 1) (by omega) hrest x hvr
        have hne :
            (rest.zip (List.range' (k + 1) rest.length)).filter
              (fun p => decide (p.1 = x)) ≠ [] := by
          intro h0
          rw [h0] at ihr
          simp at ihr
        obtain ⟨q, qs, hq⟩ := List.exists_cons_of_ne_nil hne
        rw [hq, List.getLast?_cons_cons, ← hq, ihr]
        congr 1
        rw [List.countP_cons]
        simp only [le_refl, decide_True, if_true]
        omega
      · rw [filter_zip_nil rest _ hvr]
        simp only [List.getLast?_singleton, Option.map_some]
        have hcnt : rest.countP (fun y => decide (y ≤ x)) = 0 := by
          rw [List.countP_eq_zero]
          intro y hy
          simp only [decide_eq_true_eq]
          intro hyx
          exact hvr ((le_antisymm (hxle y hy) hyx) ▸ hy)
        rw [List.countP_cons]
        simp only [le_refl, decide_True, if_true, hcnt]
        simp
        omega
    · rw [if_neg (by simpa using hx)]
      have hvr : v ∈ rest := by
        rcases List.mem_cons.mp hv with h1 | h1
        · exact absurd h1.symm hx
        · exact h1
      have ihr := ih (k + 1) (by omega) hrest v hvr
      rw [ihr]
      congr 1
      have hxv : x ≤ v := hxle v hvr
      rw [List.countP_cons]
      simp only [hxv, decide_True, if_true]
      omega

theorem ranksGet_eq_countP {s : List ℚ}
    (hs : s.Pairwise (fun a b : ℚ => a ≤ b)) {v : ℚ} (hv : v ∈ s) :
    ranksGet s v = s.countP (fun x => decide (x ≤ v)) := by
  unfold ranksGet
  rw [ranksAux s 1 le_rfl hs v hv]
  simp

theorem mem_buildTable {aps bps : Option (List String)} {trials : List Trial}
    {row : List Datum} (h : row ∈ buildTable aps bps trials) :
    ∃ p ∈ groupTrials aps bps trials,
      row = (List.insertionSort fstLe (processRowAL p.2)).map Prod.snd := by
  unfold buildTable at h
  obtain ⟨q, hq, he⟩ := List.mem_map.mp h
  have hq2 : q ∈ (groupTrials aps bps trials).map (fun p => (p.1, processRowAL p.2)) :=
    (List.perm_insertionSort fstLe _).mem_iff.mp hq
  obtain ⟨p, hp, he2⟩ := List.mem_map.mp hq2
  refine ⟨p, hp, ?_⟩
  rw [← he, ← he2]

theorem mem_row {al : List (ℕ × Datum)} {d : Datum}
    (h : d ∈ (List.insertionSort fstLe (processRowAL al)).map Prod.snd) :
    ∃ d0, (∃ j, (j, d0) ∈ al) ∧ d = updDatum al d0 := by
  obtain ⟨q, hq, he⟩ := List.mem_map.mp h
  have hq2 : q ∈ processRowAL al := (List.perm_insertionSort fstLe _).mem_iff.mp hq
  unfold processRowAL at hq2
  obtain ⟨p, hp, he2⟩ := List.mem_map.mp hq2
  refine ⟨p.2, ⟨p.1, by simpa using hp⟩, ?_⟩
  rw [← he, ← he2]

theorem row_seconds_perm (al : List (ℕ × Datum)) :
    (((List.insertionSort fstLe (processRowAL al)).map Prod.snd).map
        Datum.seconds).Perm (al.map (fun p => p.2.seconds)) := by
  have h1 := ((List.perm_insertionSort fstLe (processRowAL al)).map Prod.snd).map
    Datum.seconds
  apply h1.trans
  have h2 : ((processRowAL al).map Prod.snd).map Datum.seconds =
      al.map (fun p => p.2.seconds) := by
    simp [processRowAL, List.map_map, Function.comp_def, updDatum_seconds]
  rw [h2]

unseal Rat.mul Rat.inv in
/-- Claim C2 counterexample: in a row whose two cells share the equal lowest
time, the ranks dict (built from a zip where later pairs overwrite earlier
ones) gives both cells rank 2, not rank 1, refuting the claim at this
concrete input. -/
theorem rank_tie_counterexample :
    ¬ (∀ kt ∈ tablesOf none none demoTieTrials, ∀ row ∈ kt.2, ∀ d ∈ row,
        d.isbest = true → d.rank = 1) := by
  decide

/-- Claim C2, amended: the rank of each cell equals the number of times in
its row that are less than or equal to its own time — the position of the
LAST occurrence of its time in the ascending sorted row.  Tied times share
one rank, namely the last tied position (so two cells sharing the equal
lowest time in a two-cell row both receive rank 2, not rank 1). -/
theorem rank_is_last_tied_position (aps bps : Option (List String))
    (results : List Trial) :
    ∀ kt ∈ tablesOf aps bps results, ∀ row ∈ kt.2, ∀ d ∈ row,
      d.rank = (row.map Datum.seconds).countP (fun x => decide (x ≤ d.seconds)) := by
  intro kt hkt row hrow d hd
  unfold tablesOf at hkt
  obtain ⟨g, _, he⟩ := List.mem_map.mp hkt
  have hrow2 : row ∈ buildTable aps bps g.2 := by rw [← he] at hrow; exact hrow
  obtain ⟨p, _, hre⟩ := mem_buildTable hrow2
  subst hre
  obtain ⟨d0, ⟨j, hj⟩, hde⟩ := mem_row hd
  subst hde
  rw [updDatum_rank, updDatum_seconds]
  have hmem : d0.seconds ∈ p.2.map (fun q => q.2.seconds) := by
    exact List.mem_map.mpr ⟨(j, d0), hj, rfl⟩
  have hmemS : d0.seconds ∈ sortedvalsOf p.2 := (sortedvals_perm p.2).mem_iff.mpr hmem
  rw [ranksGet_eq_countP (sortedvals_sorted p.2) hmemS]
  rw [(sortedvals_perm p.2).countP_eq, ← (row_seconds_perm p.2).countP_eq]

unseal Rat.mul Rat.inv in
/-- Witness for claim C2 on the concrete tied-row table. -/
theorem rank_is_last_tied_position_witness :
    demoTieDat.rank =
      (demoTieRow.map Datum.seconds).countP
        (fun x => decide (x ≤ demoTieDat.seconds)) :=
  rank_is_last_tied_position none none demoTieTrials demoTieKT (by decide)
    demoTieRow (by decide) demoTieDat (by decide)

/-- Claim C3: in every table built from a non-empty result set with positive
measured times, every row satisfies: all cells have relative time at least 1,
and every cell marked best has relative time exactly 1 and the minimum rank
of the row. -/
theorem table_best_invariant (aps bps : Option (List String))
    (results : List Trial) (_hne : results ≠ [])
    (hpos : ∀ t ∈ results, 0 < t.mintime.getD 0) :
    ∀ kt ∈ tablesOf aps bps results, ∀ row ∈ kt.2,
      (∀ d ∈ row, 1 ≤ d.reltime) ∧
      (∀ d ∈ row, d.isbest = true →
        d.reltime = 1 ∧ ∀ e ∈ row, d.rank ≤ e.rank) := by
  intro kt hkt row hrow
  unfold tablesOf at hkt
  obtain ⟨g, hg, he⟩ := List.mem_map.mp hkt
  have hgP : ∀ t ∈ g.2, 0 < t.mintime.getD 0 := by
    intro t ht
    exact hpos t (resultGroups_sub results g hg t ht)
  have hrow2 : row ∈ buildTable aps bps g.2 := by rw [← he] at hrow; exact hrow
  obtain ⟨p, hp, hre⟩ := mem_buildTable hrow2
  subst hre
  have hinv := groupTrials_inv aps bps (fun dd => 0 < dd.seconds) g.2 []
    (fun t ht => by
      show 0 < (mkDatum aps bps t).seconds
      rw [mkDatum_seconds]; exact hgP t ht)
    (by simp) p hp
  obtain ⟨halne, hals⟩ := hinv
  have hml := minval_le halne
  have hMpos : 0 < (sortedvalsOf p.2).headD 0 := by
    obtain ⟨pm, hpm, hpe⟩ := List.mem_map.mp hml.1
    rw [← hpe]
    exact hals pm hpm
  constructor
  · intro d hd
    obtain ⟨d0, ⟨j, hj⟩, hde⟩ := mem_row hd
    subst hde
    rw [updDatum_reltime]
    have hdm : (sortedvalsOf p.2).headD 0 ≤ d0.seconds :=
      hml.2 _ (List.mem_map.mpr ⟨(j, d0), hj, rfl⟩)
    exact (one_le_div hMpos).mpr hdm
  · intro d hd hbest
    obtain ⟨d0, ⟨j, hj⟩, hde⟩ := mem_row hd
    subst hde
    rw [updDatum_isbest] at hbest
    have hdm : d0.seconds = (sortedvalsOf p.2).headD 0 := of_decide_eq_true hbest
    constructor
    · rw [updDatum_reltime, hdm]
      exact div_self (ne_of_gt hMpos)
    · intro e he
      obtain ⟨e0, ⟨j2, hj2⟩, hee⟩ := mem_row he
      subst hee
      rw [updDatum_rank, updDatum_rank]
      have hs := sortedvals_sorted p.2
      have hdS : d0.seconds ∈ sortedvalsOf p.2 :=
        (sortedvals_perm p.2).mem_iff.mpr (List.mem_map.mpr ⟨(j, d0), hj, rfl⟩)
      have heS : e0.seconds ∈ sortedvalsOf p.2 :=
        (sortedvals_perm p.2).mem_iff.mpr (List.mem_map.mpr ⟨(j2, e0), hj2, rfl⟩)
      rw [ranksGet_eq_countP hs hdS, ranksGet_eq_countP hs heS]
      apply List.countP_mono_left
      intro x _ hxd
      simp only [decide_eq_true_eq] at hxd ⊢
      have hMe : (sortedvalsOf p.2).headD 0 ≤ e0.seconds :=
        hml.2 _ (List.mem_map.mpr ⟨(j2, e0), hj2, rfl⟩)
      calc x ≤ d0.seconds := hxd
        _ = (sortedvalsOf p.2).headD 0 := hdm
        _ ≤ e0.seconds := hMe

unseal Rat.mul Rat.inv in
/-- Witness for claim C3 on the concrete two-cell table with distinct times. -/
theorem table_best_invariant_witness : 1 ≤ demoDat.reltime :=
  (table_best_invariant none none demoDistinctTrials (by decide) (by decide)
    demoKT (by decide) demoRow (by decide)).1 demoDat (by decide)

/-- Claim C8: requesting the relative and the rank view together is rejected
immediately with the ValueError, before any output is produced; for a
non-empty rectangular table with non-empty rows, any other flag combination
renders a table without error. -/
theorem to_gfm_flags (table : List (List Datum)) :
    (to_gfm table true true =
      Except.error "ValueError: relative and rank keywords cannot both be True") ∧
    (table ≠ [] → (∀ row ∈ table, row ≠ []) →
      (∀ row ∈ table, row.length = (table.headD []).length) →
      ∀ rel rank : Bool, ¬ (rel = true ∧ rank = true) →
      ∃ s, to_gfm table rel rank = Except.ok s) := by
  constructor
  · rfl
  · intro hne hrows hrect rel rank hnb
    have hrr : (rel && rank) = false := by
      cases rel <;> cases rank <;> simp_all
    obtain ⟨row0, rest, htab⟩ := List.exists_cons_of_ne_nil hne
    subst htab
    have hemp : ((row0 :: rest).any fun row => row.isEmpty) = false := by
      rw [List.any_eq_false]
      intro row hr
      simpa [List.isEmpty_iff] using hrows row hr
    have hrag : ((row0 :: rest).any fun row => row0.length < row.length) = false := by
      rw [List.any_eq_false]
      intro row hr
      have := hrect row hr
      simp only [List.headD_cons] at this
      simp [this]
    unfold to_gfm
    rw [hrr]
    simp only [Bool.false_eq_true, if_false]
    rw [hemp, hrag]
    simp only [Bool.false_eq_true, if_false]
    exact ⟨_, rfl⟩

/-- Witness for claim C8 on a concrete one-cell table: rejecting both flags
and rendering successfully with one flag. -/
theorem to_gfm_flags_witness :
    to_gfm demoTable true true =
      Except.error "ValueError: relative and rank keywords cannot both be True" ∧
    (to_gfm demoTable true false).isOk = true := by
  refine ⟨(to_gfm_flags demoTable).1, ?_⟩
  obtain ⟨s, hs⟩ := (to_gfm_flags demoTable).2 (by decide) (by decide) (by decide)
    true false (by simp)
  rw [hs]
  rfl
